import Mathlib

/-!
Verification of the search-engine core (`nissejokke/search-engine`).

The TypeScript source is shallowly embedded: JavaScript numbers that stay
within the exact integer range of IEEE doubles are modelled as `Int` / `Nat`
(with explicit `% 2 ^ 32` where the source relies on 32-bit wrap-around),
byte buffers as `List Nat`, association objects as association lists, and
the cooperative-async iterators as pure lists (the engine is single-task,
so `await` points do not interleave).  Fallible operations return
`Except`/an error option.  Loops whose termination is not structural carry
an explicit fuel argument that is chosen large enough at every call site.
-/

namespace SearchEngine

/-! ## Engine.sumArray / Engine.isAllEqual / Engine.intersect
(`engine.ts`, current revision: `src/unnamed/part_007`, first document)

`sumArray(vals)` is `vals.reduce((av, cv) => av + cv, 0)`.

`isAllEqual(vals)` is `this.sumArray(vals) / vals.length == vals[0]`.
The division is IEEE double division.  For a nonempty list of integers in
the doc-id / word-position range the correctly rounded quotient `sum / len`
equals the integer `vals[0]` if and only if `sum = vals[0] * len` exactly
(otherwise the quotient differs from `vals[0]` by at least `1 / len`, far
more than half an ulp at this magnitude), so the comparison is modelled by
that integer identity.  On the empty list the source compares `NaN` with
`undefined`, which is false, hence the explicit guard. -/

def sumArray (vals : List Int) : Int := vals.foldl (· + ·) 0

def isAllEqual (vals : List Int) : Bool :=
  match vals with
  | [] => false
  | v0 :: _ => sumArray vals == v0 * vals.length

/-- JavaScript `Math.min(...values)` for the nonempty lists that occur in
`intersect` (with the head as the fold seed). -/
def minList (vals : List Int) : Int := vals.foldl min (vals.headD 0)

/-- The initial draw of `intersect`: `for each i: next(); if done return result`
(with `result` still empty).  Returns the drawn head and the remaining
stream for every iterator, or `none` when some iterator is already done. -/
def drawAll : List (List Int) → Option (List (Int × List Int))
  | [] => some []
  | [] :: _ => none
  | (v :: rest) :: arrs => (drawAll arrs).map (fun s => (v, rest) :: s)

/-- The `while (result.length < maxCount)` loop of `Engine.intersect`
(`part_007` lines 410-426).  `streams` pairs each iterator's currently
drawn value with its remaining elements.  The fuel bounds the number of
iterations; every iteration consumes one stream element, so the caller's
fuel (total element count plus one) never runs out. -/
def intersectLoop (accept : Option (Int → Bool)) (maxCount : Nat) :
    Nat → List (Int × List Int) → List Int → List Int
  | 0, _, result => result
  | fuel + 1, streams, result =>
    if result.length ≥ maxCount then result
    else
      let values := streams.map Prod.fst
      let v0 := values.headD 0
      let result2 :=
        if isAllEqual values then
          match accept with
          | some f => if f v0 then result ++ [v0] else result
          | none => result ++ [v0]
        else result
      let m := minList values
      let i := values.findIdx (· == m)
      match (streams.getD i (0, [])).2 with
      | [] => result2
      | v :: tail => intersectLoop accept maxCount fuel (streams.set i (v, tail)) result2

/-- Fuel that bounds the iterations of `intersectLoop`. -/
def sumLens (arrs : List (List Int)) : Nat := (arrs.map List.length).sum

/-- Source `Engine.intersect(arrs, maxCount, shouldBeAdded?)` (`part_007` lines
388-428).  With no iterator the result is empty.  With exactly one
iterator the source drains up to `maxCount` values and pushes each of them
without consulting `shouldBeAdded`.  Otherwise it draws one value per
iterator and runs the merge loop. -/
def intersect (arrs : List (List Int)) (maxCount : Nat) (accept : Option (Int → Bool)) :
    List Int :=
  match arrs with
  | [] => []
  | [a] => a.take maxCount
  | _ =>
    match drawAll arrs with
    | none => []
    | some streams => intersectLoop accept maxCount (sumLens arrs + 1) streams []

/-! ## Hash (`src/hash.ts`): FNV-1a hashing and bucket probing

Keys are modelled as their lists of character codes; for the ASCII keys
used throughout, `charCodeAt` (fed to the hash) and the UTF-8 bytes (stored
in the bucket row) coincide.
-/

/-- One step of `Hash.fnv32a` (`hash.ts` lines 581-590):
`hval ^= str.charCodeAt(i)` followed by
`hval += (hval<<1)+(hval<<4)+(hval<<7)+(hval<<8)+(hval<<24)`.
The JavaScript shifts act on the signed 32-bit truncation and the sum is
exact double arithmetic; both signedness and the float detour only change
the value by multiples of `2 ^ 32`, which the final truncation removes, so
the step is modelled with plain `Nat` arithmetic modulo `2 ^ 32`. -/
def fnv32aStep (h c : Nat) : Nat :=
  let h1 := (Nat.xor h c) % 4294967296
  (h1 + (h1 * 2 + h1 * 16 + h1 * 128 + h1 * 256 + h1 * 16777216)) % 4294967296

/-- Source `Hash.fnv32a(str)`: 32-bit FNV-1a over the character codes, seeded with
`0x811c9dc5`, returned as an unsigned 32-bit integer. -/
def fnv32a (codes : List Nat) : Nat := codes.foldl fnv32aStep 0x811c9dc5

/-- Source `Hash.toBEInt32(num)` (`hash.ts` lines 567-575): the four big-endian
bytes of a 32-bit value.  The source extracts them with masks and shifts;
for `num < 2 ^ 32` that is division and remainder by powers of 256. -/
def toBEInt32 (num : Nat) : List Nat :=
  [num / 16777216 % 256, num / 65536 % 256, num / 256 % 256, num % 256]

/-- One bucket row of the hash file: `[key bytes padded to keySize][head
offset, 4 bytes BE][tail offset, 4 bytes BE]`.  `keyBytes` holds the
zero-padded key area. -/
structure Bucket where
  keyBytes : List Nat
  head : Nat
  tail : Nat
deriving DecidableEq

/-- The raw bytes of a bucket row. -/
def rowBytes (b : Bucket) : List Nat := b.keyBytes ++ toBEInt32 b.head ++ toBEInt32 b.tail

/-- Source `Hash.hashEntryContainsData(hashEntry, key)` (`hash.ts` lines 411-419):
compares the first `key.length + 4` row bytes against the key bytes
followed by four zero bytes. -/
def hashEntryContainsData (b : Bucket) (key : List Nat) : Bool :=
  (rowBytes b).take (key.length + 4) == key ++ [0, 0, 0, 0]

/-- A probe stops at bucket `i` when the bucket is vacant (`head = 0`) or
its stored key matches: the negation of the source's continue condition
`headOffset > 0 && !hashEntryContainsKey`. -/
def probeStopsB (tbl : Nat → Bucket) (key : List Nat) (i : Nat) : Bool :=
  (tbl i).head == 0 || hashEntryContainsData (tbl i) key

/-- The `do ... while (checkNextEntry)` loop of
`Hash.getHashEntryMatchingKey` (`hash.ts` lines 369-395).  On a failed
probe the source advances by `(collisions + 1) ** 2` modulo `hashRows`;
the `collisions` counter is initialised to 0 and never incremented, and is
threaded here unchanged, exactly as in the source.  The final result also
applies the source's `if (tailOffset === 0) tailOffset = headOffset`.  The
source loop has no exit besides a successful stop; the fuel makes the
recursion well defined, with `none` standing for a loop still running
after `fuel` probes. -/
def getHashEntryMatchingKey (tbl : Nat → Bucket) (hashRows : Nat) (key : List Nat) :
    Nat → Nat → Nat → Option (Nat × Nat × Nat)
  | _, _, 0 => none
  | idx, collisions, fuel + 1 =>
    let entry := tbl idx
    if entry.head > 0 && !hashEntryContainsData entry key then
      getHashEntryMatchingKey tbl hashRows key
        ((idx + (collisions + 1) ^ 2) % hashRows) collisions fuel
    else
      some (idx, entry.head, if entry.tail == 0 then entry.head else entry.tail)

/-- Bucket lookup for a key: `getHashEntryMatchingKey` started at
`fnv32a(key) % hashRows` with `collisions = 0`. -/
def hashLookup (tbl : Nat → Bucket) (hashRows : Nat) (key : List Nat) (fuel : Nat) :
    Option (Nat × Nat × Nat) :=
  getHashEntryMatchingKey tbl hashRows key (fnv32a key % hashRows) 0 fuel

/-- Modelled from the spec: section 4.1 describes bucket lookup as probing
`b = (h + c^2) mod hash_rows` for `c = 0, 1, 2, ...` with
`h = fnv1a_32(K) mod hash_rows`, stopping at the first vacant or matching
bucket.  This definition follows those words and serves only as the
comparison point for the probe-sequence claim; the code's sequence is
`getHashEntryMatchingKey`. -/
def specQuadraticLookup (tbl : Nat → Bucket) (hashRows : Nat) (key : List Nat) :
    Nat → Nat → Option Nat
  | _, 0 => none
  | c, fuel + 1 =>
    let i := (fnv32a key % hashRows + c ^ 2) % hashRows
    if probeStopsB tbl key i then some i
    else specQuadraticLookup tbl hashRows key (c + 1) fuel

/-! ## Buffer relational comparison

`Hash.findIndexToInsertSortedAt` (`hash.ts` lines 301-308) compares node
payloads with `buf <= buffer`, a JavaScript relational comparison of two
`Buffer` objects.  Neither operand is a primitive, so both are converted
with `OrdinaryToPrimitive`: `valueOf` returns the object itself, after
which `toString()` is used — Node's `Buffer.prototype.toString()` decodes
the bytes as UTF-8 with U+FFFD replacement (WHATWG decoder).  The two
resulting strings are then compared lexicographically by UTF-16 code
unit.  The definitions below reproduce that pipeline.
-/

/-- WHATWG UTF-8 decoding with replacement, byte list to code points:
ASCII bytes pass through; 2-, 3- and 4-byte sequences check the
lead-dependent boundaries of the first continuation byte (`E0 → A0..BF`,
`ED → 80..9F`, `F0 → 90..BF`, `F4 → 80..8F`); an invalid byte yields
U+FFFD and decoding resumes at that byte; a sequence cut off by the end of
input yields a single U+FFFD. -/
def utf8DecodeAux : Nat → List Nat → List Nat
  | 0, _ => []
  | _, [] => []
  | f + 1, b :: rest =>
    if b < 128 then b :: utf8DecodeAux f rest
    else if 194 ≤ b ∧ b ≤ 223 then
      match rest with
      | [] => [65533]
      | c1 :: rest1 =>
        if 128 ≤ c1 ∧ c1 ≤ 191 then (b % 32 * 64 + c1 % 64) :: utf8DecodeAux f rest1
        else 65533 :: utf8DecodeAux f (c1 :: rest1)
    else if 224 ≤ b ∧ b ≤ 239 then
      match rest with
      | [] => [65533]
      | c1 :: rest1 =>
        if (if b = 224 then 160 else 128) ≤ c1 ∧ c1 ≤ (if b = 237 then 159 else 191) then
          match rest1 with
          | [] => [65533]
          | c2 :: rest2 =>
            if 128 ≤ c2 ∧ c2 ≤ 191 then
              (b % 16 * 4096 + c1 % 64 * 64 + c2 % 64) :: utf8DecodeAux f rest2
            else 65533 :: utf8DecodeAux f (c2 :: rest2)
        else 65533 :: utf8DecodeAux f (c1 :: rest1)
    else if 240 ≤ b ∧ b ≤ 244 then
      match rest with
      | [] => [65533]
      | c1 :: rest1 =>
        if (if b = 240 then 144 else 128) ≤ c1 ∧ c1 ≤ (if b = 244 then 143 else 191) then
          match rest1 with
          | [] => [65533]
          | c2 :: rest2 =>
            if 128 ≤ c2 ∧ c2 ≤ 191 then
              match rest2 with
              | [] => [65533]
              | c3 :: rest3 =>
                if 128 ≤ c3 ∧ c3 ≤ 191 then
                  (b % 8 * 262144 + c1 % 64 * 4096 + c2 % 64 * 64 + c3 % 64) ::
                    utf8DecodeAux f rest3
                else 65533 :: utf8DecodeAux f (c3 :: rest3)
            else 65533 :: utf8DecodeAux f (c2 :: rest2)
        else 65533 :: utf8DecodeAux f (c1 :: rest1)
    else 65533 :: utf8DecodeAux f rest

/-- The decoder applied with enough fuel: every step of `utf8DecodeAux`
consumes at least the lead byte while spending one unit of fuel, so a fuel
equal to the byte count is never exhausted. -/
def utf8Decode (bytes : List Nat) : List Nat := utf8DecodeAux bytes.length bytes

/-- Code points to UTF-16 code units (astral code points become surrogate
pairs), the representation on which JavaScript compares strings. -/
def utf16Units (cps : List Nat) : List Nat :=
  cps.flatMap fun cp =>
    if cp < 65536 then [cp]
    else [55296 + (cp - 65536) / 1024, 56320 + (cp - 65536) % 1024]

/-- Lexicographic less-or-equal on code-unit lists, with a prefix ordered
before its extensions: the JavaScript string comparison. -/
def lexLe : List Nat → List Nat → Bool
  | [], _ => true
  | _ :: _, [] => false
  | x :: xs, y :: ys => if x < y then true else if y < x then false else lexLe xs ys

/-- The JavaScript expression `buf <= buffer` on two Buffers: lexicographic
UTF-16 comparison of their UTF-8 decodings. -/
def bufLe (a b : List Nat) : Bool :=
  lexLe (utf16Units (utf8Decode a)) (utf16Units (utf8Decode b))

/-! ## Hash linked lists, chain view

A key's value in the hash file is a singly linked list of fixed-size
nodes; the last node in the chain has `next = 0`.  A chain is modelled as
the list of node payloads in chain order (each node implicitly points to
the one after it, the final node to 0).  `Hash.set` creates the chain
`[payload]`; the key's chain is nonempty from then on.
-/

/-- The scan of `Hash.findIndexToInsertSortedAt` (`hash.ts` lines
301-308): iterate all nodes (the trailing `next = 0` node included, as the
source passes `includeTrailingEmpyNode = true`), return the index of the
first node whose payload satisfies `buf <= buffer`, else the last index
plus one.  `idx` is the iterator's running index and `i` the source's last
stored index (`i` stays 0 on an empty chain, so that case returns 1). -/
def fisAux (b : List Nat) : List (List Nat) → Nat → Nat → Nat
  | [], _, i => i + 1
  | x :: xs, idx, _ => if bufLe b x then idx else fisAux b xs (idx + 1) idx

/-- Source `Hash.findIndexToInsertSortedAt(key, buf)` on the key's chain. -/
def findIndexToInsertSortedAt (chain : List (List Nat)) (b : List Nat) : Nat :=
  fisAux b chain 0 0

/-- Source `Hash.insertAt(key, index, buf)` (`hash.ts` lines 115-162) on the
chain view.  `index = 0` is `insertFirst` (new head pointing at the old
head).  Otherwise the source walks `getIterator(key, true)` keeping
`previous`/`current`: the new node lands between the adjacent nodes at
positions `j - 1` and `j` where `j = min index (length - 1)` (the walk
stops at `index`, or at the last node when the chain is shorter); when the
walk never sets `previous` (chain of at most one node) the source falls
back to `insertFirst`. -/
def insertAtChain (chain : List (List Nat)) (i : Nat) (b : List Nat) : List (List Nat) :=
  if i = 0 then b :: chain
  else if chain.length ≤ 1 then b :: chain
  else
    let j := min i (chain.length - 1)
    chain.take j ++ b :: chain.drop j

/-- Source `BinaryFileStorage.addWord`, its mutation of the word's chain
(`src/unnamed/part_010` lines 494-501): sorted-position lookup followed by
`insertAt`, with the doc id encoded as its four big-endian bytes. -/
def binAddWordChain (chain : List (List Nat)) (pageId : Nat) : List (List Nat) :=
  insertAtChain chain (findIndexToInsertSortedAt chain (toBEInt32 pageId)) (toBEInt32 pageId)

/-- The chain holding the doc ids `ids` in list order: one node per id
plus the trailing zero-payload node written by `Hash.set`. -/
def mkChain (ids : List Nat) : List (List Nat) := ids.map toBEInt32 ++ [[0, 0, 0, 0]]

/-- Source `MemoryStorage.addWord(word, pageId)` (`src/memory-storage.ts` lines
53-55): `this.index[word].push(pageId)`, a plain append.  (`initWord`
always precedes it in `Engine.add`, so the entry exists.) -/
def memAddWord (l : List Nat) (pageId : Nat) : List Nat := l ++ [pageId]

/-- Strict ascending order of a doc-id list, decidably. -/
def strictAscendingB : List Nat → Bool
  | [] => true
  | [_] => true
  | x :: y :: t => x < y && strictAscendingB (y :: t)

/-- The sorted-insert position split used to state what `addWord` builds:
the ids below `d`, then `d`, then the rest. -/
def insertOrd (d : Nat) (ids : List Nat) : List Nat :=
  ids.takeWhile (fun x => x < d) ++ d :: ids.dropWhile (fun x => x < d)

/-! ## Hash file, node level (`Hash.set` / `Hash.getIterator`)

For the claims about `set` and `getIterator` the file is modelled one
level lower than the chain view: a bucket table keyed by the key string
(the probing of `getHashEntryMatchingKey` resolves each key to its
bucket), a node area mapping node offsets to `(payload, next)` pairs, and
the header's free-offset pointer.  Offset 0 is never allocated (the file
starts with the header), so `next = 0` is the end-of-list mark and
`head = 0` a vacant bucket.
-/

/-- Update-or-insert on an association list. -/
def upsert {κ β : Type} [BEq κ] : List (κ × β) → κ → β → List (κ × β)
  | [], k, v => [(k, v)]
  | (k0, v0) :: rest, k, v =>
    if k0 == k then (k, v) :: rest else (k0, v0) :: upsert rest k v

/-- The hash file state: buckets (key to head and tail offsets), nodes
(offset to payload and next offset), and the header's next free node
offset. -/
structure HashFile where
  buckets : List (String × Nat × Nat)
  nodes : List (Nat × (List Nat × Nat))
  free : Nat

/-- Source `Hash.set(key, data?)` (`hash.ts` lines 75-107).  If the key's bucket
is vacant a node slot is allocated at the free offset and the free pointer
is bumped by the node size; if the key exists its head offset is reused.
Either way the bucket row is written with `head = tail = headOffset` and
the node at `headOffset` is overwritten with the payload and `next = 0`. -/
def hashSet (nodeSz : Nat) (f : HashFile) (key : String) (data : List Nat) : HashFile :=
  match f.buckets.lookup key with
  | some (h, _) =>
    { buckets := upsert f.buckets key (h, h)
      nodes := upsert f.nodes h (data, 0)
      free := f.free }
  | none =>
    { buckets := upsert f.buckets key (f.free, f.free)
      nodes := upsert f.nodes f.free (data, 0)
      free := f.free + nodeSz }

/-- The walk of `Hash.getIterator(key)` with the default
`includeTrailingEmpyNode = false` (`hash.ts` lines 265-294): read the node
at the current offset; a node is yielded only when its `next` is nonzero,
and the walk continues at `next` while it is nonzero.  The fuel bounds the
walk; a missing node entry corresponds to reading unwritten file space and
ends the walk. -/
def iterFromNode (f : HashFile) : Nat → Nat → List (List Nat)
  | _, 0 => []
  | off, fuel + 1 =>
    match f.nodes.lookup off with
    | none => []
    | some (payload, nxt) =>
      if nxt ≠ 0 then payload :: iterFromNode f nxt fuel else []

/-- Source `Hash.getIterator(key)` from the key's bucket head (a vacant or absent
bucket has head offset 0, where no node is ever written). -/
def hashGetIterator (f : HashFile) (key : String) (fuel : Nat) : List (List Nat) :=
  match f.buckets.lookup key with
  | none => iterFromNode f 0 fuel
  | some (h, _) => iterFromNode f h fuel

/-! ## Tokenizer (`Engine.toWords`, `part_007` lines 456-481)

Characters are processed over the string's character list.  JavaScript
`\w` is `[A-Za-z0-9_]` (with `\d` redundant alongside it) and the source
adds `å`, `ä`, `ö`; `\s` covers the usual ASCII whitespace (the extra
Unicode space characters it also matches do not occur in the corpus).
`toLowerCase` agrees with ASCII lower-casing on the characters kept by the
filter (`å`, `ä`, `ö` are already lower case).
-/

/-- A character matched by the source's `[\w\dåäö]`. -/
def isWordCharJs (c : Char) : Bool :=
  (decide ('a' ≤ c) && decide (c ≤ 'z')) ||
  (decide ('A' ≤ c) && decide (c ≤ 'Z')) ||
  (decide ('0' ≤ c) && decide (c ≤ '9')) ||
  c == '_' || c == 'å' || c == 'ä' || c == 'ö'

/-- A character matched by the source's `[\s]` on the inputs considered. -/
def isSpaceJs (c : Char) : Bool :=
  c == ' ' || c == '\t' || c == '\n' || c == '\r'

/-- ASCII lower-casing, the effect of `toLowerCase` on the tokens kept
(applied characterwise over the string's character list). -/
def jsToLower (s : String) : String := String.mk (s.data.map Char.toLower)

/-- JavaScript `String.split(/[\s]/g)`: split at every whitespace character, keeping
empty pieces (they are filtered out afterwards).  `cur` accumulates the
current piece in reverse. -/
def splitAux : List Char → List Char → List (List Char)
  | [], cur => [cur.reverse]
  | c :: cs, cur =>
    if isSpaceJs c then cur.reverse :: splitAux cs [] else splitAux cs (c :: cur)

/-- Source `Engine.isStopWord(word)` (`part_007` lines 487-489): length below two
or membership in the configured stop-word set. -/
def isStopWord (sw : List String) (w : String) : Bool :=
  decide (w.length < 2) || sw.contains w

/-- The tokenizer's `isOkWord` (`part_007` lines 461-464): the piece is
nonempty, and when stop words are being removed it is a quote mark or not
a stop word. -/
def isOkWord (sw : List String) (removeStopWords : Bool) (w : String) : Bool :=
  (w != "") && (!removeStopWords || (removeStopWords && (w == "\"" || !isStopWord sw w)))

/-- The result of tokenization: the kept words and the quote-mark
positions (pairwise delimiting quoted ranges in `words`). -/
structure TokenizeResult where
  words : List String
  quotes : List Nat
deriving DecidableEq

/-- The final `reduce` of `toWords`: a quote mark records the position
`index - quotes.length` (its index among the kept pieces minus the quote
marks already seen, i.e. its position in `words`); any other piece is
appended to `words`, lower-cased when requested. -/
def tokenReduceAux (lowerCase : Bool) : List String → Nat → TokenizeResult → TokenizeResult
  | [], _, av => av
  | w :: ws, idx, av =>
    if w == "\"" then
      tokenReduceAux lowerCase ws (idx + 1)
        { av with quotes := av.quotes ++ [idx - av.quotes.length] }
    else
      tokenReduceAux lowerCase ws (idx + 1)
        { av with words := av.words ++ [if lowerCase then jsToLower w else w] }

/-- Source `Engine.toWords(text, lowerCase, removeStopWords)`: replace every
character outside `[\w\dåäö"\s]` with a space, surround each quote mark
with spaces, split on whitespace, strip residual characters outside
`[\w\dåäö"]` from each piece, filter with `isOkWord`, and fold the pieces
into words and quote positions. -/
def toWords (sw : List String) (text : String) (lowerCase removeStopWords : Bool) :
    TokenizeResult :=
  let replaced := text.data.map fun c =>
    if isWordCharJs c || c == '"' || isSpaceJs c then c else ' '
  let spaced := replaced.flatMap fun c => if c == '"' then [' ', '"', ' '] else [c]
  let pieces := (splitAux spaced []).map fun p =>
    String.mk (p.filter fun c => isWordCharJs c || c == '"')
  let ok := pieces.filter (isOkWord sw removeStopWords)
  tokenReduceAux lowerCase ok 0 ⟨[], []⟩

/-! ## Engine `add` and the two storage implementations -/

/-- The throw sites reachable from `Engine.add`, one constructor per
distinct `throw new Error(...)` in the source. -/
inductive EngineErr where
  /-- `Engine.add`: `'page already in index: ' + url + ', ' + pageId`. -/
  | pageAlreadyInIndex (url : String) (pageId : Nat)
  /-- `BinaryFileStorage.getSeed`: `'Rank <= 0'`. -/
  | rankExhausted
  /-- `BinaryFileStorage.addWord`: `'pageId ' + pageId + ' already taken'`. -/
  | pageIdTaken (pageId : Nat)
deriving DecidableEq

/-- A forward record (`Page` in `@types`): title, url, the original-case
token list, and the per-document index from lower-cased term to the list
of its positions in `words` (positions as JavaScript numbers). -/
structure Page where
  title : String
  url : String
  words : List String
  index : List (String × List Int)
deriving DecidableEq

/-- The `Storage` interface consumed by `Engine.add`
(`src/unnamed/part_008`).  Mutating operations return the new state;
`getSeed` and `addWord` can throw. -/
structure StorageOps (σ : Type) where
  getUrlToPage : σ → String → Option Nat
  getSeed : σ → Nat → Except EngineErr Nat
  setUrlToPage : σ → String → Nat → σ
  initWord : σ → String → σ
  addWord : σ → String → Nat → Except EngineErr σ
  initPage : σ → Nat → Page → σ
  getPage : σ → Nat → Option Page

/-- JavaScript truthiness of the value returned by `getUrlToPage`:
`undefined` and `0` are falsy. -/
def truthyNum : Option Nat → Bool
  | some n => n != 0
  | none => false

/-- The per-document dedup of `Engine.add` (`part_007` lines 65-77): the
source maps a repeated word to `undefined` and the insertion loop skips
falsy entries, so only first occurrences are kept, in order. -/
def dedupFirstAux (seen : List String) : List String → List String
  | [] => []
  | w :: ws =>
    if seen.contains w then dedupFirstAux seen ws
    else w :: dedupFirstAux (w :: seen) ws

/-- First occurrences of each word, in order. -/
def dedupFirst (ws : List String) : List String := dedupFirstAux [] ws

/-- The `init words` loop of `Engine.add` (`part_007` lines 79-85):
`initWord` then `addWord` for each kept word; a throw from `addWord` stops
the loop with the writes made so far kept. -/
def foldAddWords {σ : Type} (ops : StorageOps σ) (seed : Nat) :
    σ → List String → σ × Option EngineErr
  | s, [] => (s, none)
  | s, w :: ws =>
    let s1 := ops.initWord s w
    match ops.addWord s1 w seed with
    | .error e => (s1, some e)
    | .ok s2 => foldAddWords ops seed s2 ws

/-- The `page index` build of `Engine.add` (`part_007` lines 87-94): for
each word position, append the position to the entry of the lower-cased
word, skipping empty words.  (The source's `.push` guard only fails for
words shadowing `Object.prototype` members such as `constructor`; no such
token occurs in the inputs considered here.) -/
def buildPageIndexAux : List (String × List Int) → Nat → List String → List (String × List Int)
  | acc, _, [] => acc
  | acc, idx, w :: ws =>
    if w == "" then buildPageIndexAux acc (idx + 1) ws
    else
      let wl := jsToLower w
      buildPageIndexAux (upsert acc wl (((acc.lookup wl).getD []) ++ [(idx : Int)])) (idx + 1) ws

/-- The per-document forward index of `Engine.add`. -/
def buildPageIndex (words : List String) : List (String × List Int) :=
  buildPageIndexAux [] 0 words

/-- Source `Engine.add({title, text, url, rank})` (`part_007` lines 43-99) over an
abstract storage: tokenize `title + ' ' + text`; throw `DuplicateUrl` when
the url maps to a truthy page id; reserve a seed; bind the url; insert the
deduplicated non-stop lower-cased words; write the forward record.  The
returned state is the storage as left at the point of return or throw. -/
def engineAdd {σ : Type} (ops : StorageOps σ) (sw : List String) (s : σ)
    (title text url : String) (rank : Nat) : σ × Option EngineErr :=
  let words := (toWords sw (title ++ " " ++ text) false false).words
  let pid := ops.getUrlToPage s url
  if truthyNum pid then (s, some (.pageAlreadyInIndex url (pid.getD 0)))
  else
    match ops.getSeed s rank with
    | .error e => (s, some e)
    | .ok seed =>
      let s1 := ops.setUrlToPage s url seed
      let addWords := dedupFirst ((words.map jsToLower).filter fun w => !isStopWord sw w)
      match foldAddWords ops seed s1 addWords with
      | (s2, some e) => (s2, some e)
      | (s2, none) =>
        let pageIndex := buildPageIndex words
        (ops.initPage s2 seed { title := title, url := url, words := words, index := pageIndex },
         none)

/-- Source `BinaryFileStorage.getSeed(rank)` (`src/unnamed/part_010` lines
617-621): `while (await this.getPage(rank)) rank--;` then
`if (rank < 0) throw new Error('Rank <= 0')`.  When every id from the
proposed rank down to 0 is taken the JavaScript counter reaches -1
(`getPage` of a negative id yields null) and the guard throws; when the
loop stops at a free id — including id 0 — that id is returned. -/
def getSeedAux (pages : List (Nat × Page)) : Nat → Except EngineErr Nat
  | 0 => if (pages.lookup 0).isSome then .error .rankExhausted else .ok 0
  | r + 1 => if (pages.lookup (r + 1)).isSome then getSeedAux pages r else .ok (r + 1)

/-- The in-memory storage state (`src/memory-storage.ts`): term to posting
list, page id to forward record, url to page id. -/
structure MemState where
  index : List (String × List Nat)
  pages : List (Nat × Page)
  urlToPage : List (String × Nat)
deriving DecidableEq

/-- Modelled from the spec: `MemoryStorage.getSeed` is not in `src/` (the
in-memory storage there implements an older `Storage` interface without
`getSeed`); section 6.2 specifies `reserve_doc_id(proposed_rank)` as the
largest `r ≤ proposed_rank` with no record, an error if `r < 1`. -/
def getSeedMemSpec (pages : List (Nat × Page)) : Nat → Except EngineErr Nat
  | 0 => .error .rankExhausted
  | r + 1 => if (pages.lookup (r + 1)).isNone then .ok (r + 1) else getSeedMemSpec pages r

/-- The in-memory storage operations (`src/memory-storage.ts`): `addWord`
is `this.index[word].push(pageId)` — a plain append with no sorting
(`initWord` precedes it in `Engine.add`, so the entry exists). -/
def memOps : StorageOps MemState where
  getUrlToPage s u := s.urlToPage.lookup u
  getSeed s r := getSeedMemSpec s.pages r
  setUrlToPage s u d := { s with urlToPage := upsert s.urlToPage u d }
  initWord s w :=
    if (s.index.lookup w).isSome then s else { s with index := upsert s.index w [] }
  addWord s w d :=
    .ok { s with index := upsert s.index w (memAddWord ((s.index.lookup w).getD []) d) }
  initPage s d p := { s with pages := upsert s.pages d p }
  getPage s d := s.pages.lookup d

/-- The disk-backed storage state (`src/unnamed/part_010`, the revision
built on `Hash`): per-term node chains in the word hash, plus the page and
url stores. -/
structure BinState where
  wordHash : List (String × List (List Nat))
  pages : List (Nat × Page)
  urlToPage : List (String × Nat)
deriving DecidableEq

/-- The disk-backed storage operations (`BinaryFileStorage`,
`src/unnamed/part_010` lines 436-622): `initWord` creates the chain with
`Hash.set` (one zero-payload node) when the key is absent; `addWord`
throws when the page id is already taken, otherwise sorted-inserts the
big-endian id bytes. -/
def binOps : StorageOps BinState where
  getUrlToPage s u := s.urlToPage.lookup u
  getSeed s r := getSeedAux s.pages r
  setUrlToPage s u d := { s with urlToPage := upsert s.urlToPage u d }
  initWord s w :=
    if (s.wordHash.lookup w).isSome then s
    else { s with wordHash := upsert s.wordHash w [[0, 0, 0, 0]] }
  addWord s w d :=
    if (s.pages.lookup d).isSome then .error (.pageIdTaken d)
    else .ok { s with
      wordHash := upsert s.wordHash w (binAddWordChain ((s.wordHash.lookup w).getD []) d) }
  initPage s d p := { s with pages := upsert s.pages d p }
  getPage s d := s.pages.lookup d

/-! ## Snippet position merging (`Engine.constructIntroduction`,
`part_007` lines 288-371)

The claims concern the sorted merged position list the function builds
before rendering it to text, so the embedding stops at that list. -/

/-- Source `Engine.adjecentWordIndicesIntersection(indexArrs)` (`part_007` lines
264-281): shift the j-th word's position list down by j and intersect the
shifted lists with cap 1; a nonempty result holds the first phrase anchor
position. -/
def adjecentWordIndicesIntersection (indexArrs : List (List Int)) : List Int :=
  let indicesEqualized := indexArrs.mapIdx fun i wordIndices =>
    wordIndices.map fun ind => ind - (i : Int)
  intersect indicesEqualized 1 none

/-- The anchor-extension loop of `constructIntroduction` (`part_007` lines
322-323): for `j = 0 .. qIndices.length - 2`, push `intersection[j] + 1`
onto the growing intersection list, turning an anchor into the run of
consecutive positions.  (With an empty intersection the source pushes
`NaN` values; that case is not relied on below.) -/
def pushRun : List Int → Nat → Nat → List Int
  | acc, _, 0 => acc
  | acc, j, n + 1 => pushRun (acc ++ [acc.getD j 0 + 1]) (j + 1) n

/-- JavaScript `Array.prototype.slice(start, end)` on a list. -/
def sliceList {α : Type} (l : List α) (start stop : Nat) : List α :=
  (l.drop start).take (stop - start)

/-- JavaScript `Array.prototype.splice(start, deleteCount)` on a list: remove
`deleteCount` elements from `start` (both clamped to the list). -/
def listSplice {α : Type} (l : List α) (start delCount : Nat) : List α :=
  l.take start ++ l.drop (start + delCount)

/-- The quote positions taken pairwise, as the source's
`for (let i = 0; i < quotes.length; i += 2)` loops do; a trailing unpaired
entry (never produced by a balanced query) is dropped. -/
def chunkPairs : List Nat → List (Nat × Nat)
  | a :: b :: rest => (a, b) :: chunkPairs rest
  | _ => []

/-- Ascending insertion used to model the numeric sort
`.sort((a, b) => a - b)`. -/
def insertSortedInt (x : Int) : List Int → List Int
  | [] => [x]
  | y :: ys => if x ≤ y then x :: y :: ys else y :: insertSortedInt x ys

/-- The ascending numeric sort of the merged position list. -/
def sortInts (l : List Int) : List Int := l.foldr insertSortedInt []

/-- The merged, sorted position list `constructIntroduction` walks
(`part_007` lines 312-341): per-word position lists from the page index;
per quoted range the anchor run (intersection of the sliced lists plus the
consecutive extensions); then
`indices.splice(quotes[i], quotes[i + 1])` for each pair — the source
passes the range's end index as `splice`'s delete count — and finally the
concatenation of the quoted runs and the remaining per-word lists, sorted
ascending. -/
def introductionIndices (words : List String) (quotes : List Nat)
    (pageIndex : List (String × List Int)) : List Int :=
  -- the source's `.filter(val => Number.isInteger(val))` keeps every entry
  -- of the modelled integer position lists
  let indices := (words.map fun w => (pageIndex.lookup (jsToLower w)).getD []).map
    fun arr => arr.filter fun _ => true
  let pairs := chunkPairs quotes
  let quotedIndices := pairs.map fun p =>
    let qIndices := sliceList indices p.1 p.2
    pushRun (adjecentWordIndicesIntersection qIndices) 0 (qIndices.length - 1)
  let indices2 := pairs.foldl (fun acc p => listSplice acc p.1 p.2) indices
  let joined := (if quotedIndices.length ≠ 0 then quotedIndices.flatten else []) ++
    indices2.flatten
  sortInts joined

/-! ## Spec-side comparison definitions and concrete fixtures -/

/-- Index of the first element satisfying a predicate. -/
def firstIdxWith {α : Type} (p : α → Bool) : List α → Option Nat
  | [] => none
  | x :: xs => if p x then some 0 else (firstIdxWith p xs).map (· + 1)

/-- Modelled from the spec: `find_sorted_position(K, payload)` per section
4.1 returns the smallest position `i` such that the list has no node at
position `i` or the node at `i` has payload byte-compare at least
`payload`.  Byte comparison is plain lexicographic comparison of the byte
lists.  This definition follows the spec's words and serves only as the
comparison point for the sorted-position claim; the code's scan is
`findIndexToInsertSortedAt`. -/
def specFindSortedPosition (chain : List (List Nat)) (p : List Nat) : Nat :=
  match firstIdxWith (fun x => lexLe p x) chain with
  | some i => i
  | none => chain.length

/-- The key "aa" as character codes / bytes. -/
def keyAA : List Nat := [97, 97]

/-- A bucket occupied by the key "zz" (zero-padded to a 32-byte key area),
with nonzero head and tail offsets. -/
def fullBucket : Bucket :=
  { keyBytes := [122, 122] ++ List.replicate 30 0, head := 100, tail := 100 }

/-- A vacant bucket. -/
def vacantBucket : Bucket := { keyBytes := List.replicate 32 0, head := 0, tail := 0 }

/-- A table in which every bucket is occupied by the key "zz". -/
def fullTable : Nat → Bucket := fun _ => fullBucket

/-- An eight-row table occupied by "zz" at the hash index of "aa" and at
the next index, vacant elsewhere. -/
def probeTable : Nat → Bucket := fun i =>
  if i == fnv32a keyAA % 8 || i == (fnv32a keyAA % 8 + 1) % 8 then fullBucket
  else vacantBucket

/-- The empty in-memory storage. -/
def memEmpty : MemState := { index := [], pages := [], urlToPage := [] }

/-- A forward record used by the duplicate-url states. -/
def c7Page : Page := { title := "p", url := "u", words := [], index := [] }

/-- A disk-backed state in which url "u" is bound to the sentinel doc id
0 (reachable through `getSeed` returning 0). -/
def c7StateZero : BinState :=
  { wordHash := [], pages := [(0, c7Page)], urlToPage := [("u", 0)] }

/-- A disk-backed state in which url "w" is bound to doc id 7. -/
def c7State : BinState := { wordHash := [], pages := [], urlToPage := [("w", 7)] }

/-- The query words of the snippet counterexample: `aa "bb cc" dd`. -/
def c8Words : List String := ["aa", "bb", "cc", "dd"]

/-- Its quote positions: the quoted range is `words[1..3)`. -/
def c8Quotes : List Nat := [1, 3]

/-- A per-document index in which all four query terms occur, `bb cc`
adjacently at 20-21 and the non-quoted `dd` at 30. -/
def c8PageIndex : List (String × List Int) :=
  [("aa", [10]), ("bb", [20]), ("cc", [21]), ("dd", [30])]

/-! ## Helper lemmas -/

theorem lookup_upsert_self {κ β : Type} [BEq κ] [LawfulBEq κ]
    (l : List (κ × β)) (k : κ) (v : β) : (upsert l k v).lookup k = some v := by
  induction l with
  | nil => simp [upsert, List.lookup]
  | cons hd tl ih =>
    obtain ⟨k0, v0⟩ := hd
    by_cases h : k0 = k
    · simp [upsert, h, List.lookup]
    · have hbeq : (k0 == k) = false := by simp [h]
      have hbeq2 : (k == k0) = false := by
        simp only [beq_eq_false_iff_ne]
        exact fun hk => h hk.symm
      simp [upsert, hbeq, List.lookup, hbeq2, ih]

theorem fisAux_characterization (b : List Nat) :
    ∀ (xs : List (List Nat)) (idx i0 : Nat), xs ≠ [] →
      fisAux b xs idx i0 =
        (match firstIdxWith (fun x => bufLe b x) xs with
         | some j => idx + j
         | none => idx + xs.length) := by
  intro xs
  induction xs with
  | nil => intro _ _ h; exact absurd rfl h
  | cons x xs ih =>
    intro idx i0 _
    by_cases hx : bufLe b x = true
    · simp [fisAux, hx, firstIdxWith]
    · have hx2 : bufLe b x = false := by simpa using hx
      cases xs with
      | nil => simp [fisAux, hx2, firstIdxWith]
      | cons y ys =>
        have hstep : fisAux b (x :: y :: ys) idx i0 = fisAux b (y :: ys) (idx + 1) idx := by
          simp [fisAux, hx2]
        rw [hstep, ih (idx + 1) idx (by simp)]
        have hfir : firstIdxWith (fun p => bufLe b p) (x :: y :: ys) =
            (firstIdxWith (fun p => bufLe b p) (y :: ys)).map (· + 1) := by
          simp [firstIdxWith, hx2]
        rw [hfir]
        cases hfi : firstIdxWith (fun p => bufLe b p) (y :: ys) with
        | none => simp [hfi, List.length]; ring
        | some j => simp [hfi, List.length]; ring

theorem probe_loop_first_stop (tbl : Nat → Bucket) (rows : Nat) (key : List Nat)
    (hrows : 0 < rows) :
    ∀ (c idx fuel : Nat), idx < rows → c < fuel →
      probeStopsB tbl key ((idx + c) % rows) = true →
      (∀ j, j < c → probeStopsB tbl key ((idx + j) % rows) = false) →
      getHashEntryMatchingKey tbl rows key idx 0 fuel =
        some ((idx + c) % rows, (tbl ((idx + c) % rows)).head,
          if (tbl ((idx + c) % rows)).tail == 0 then (tbl ((idx + c) % rows)).head
          else (tbl ((idx + c) % rows)).tail) := by
  intro c
  induction c with
  | zero =>
    intro idx fuel hidx hfuel hstop _
    match fuel, hfuel with
    | fuel + 1, _ =>
      have hidx0 : (idx + 0) % rows = idx := by
        simp [Nat.mod_eq_of_lt hidx]
      rw [hidx0] at hstop ⊢
      have hcond : ((tbl idx).head > 0 && !hashEntryContainsData (tbl idx) key) = false := by
        simp only [probeStopsB, Bool.or_eq_true, beq_iff_eq] at hstop
        rcases hstop with h0 | hc
        · simp [h0]
        · simp [hc]
      simp [getHashEntryMatchingKey, hcond]
  | succ c ih =>
    intro idx fuel hidx hfuel hstop hmin
    match fuel, hfuel with
    | fuel + 1, hfuel =>
      have h0 : probeStopsB tbl key ((idx + 0) % rows) = false := hmin 0 (Nat.succ_pos c)
      have hidx0 : (idx + 0) % rows = idx := by
        simp [Nat.mod_eq_of_lt hidx]
      rw [hidx0] at h0
      have hcond : ((tbl idx).head > 0 && !hashEntryContainsData (tbl idx) key) = true := by
        simp only [probeStopsB, Bool.or_eq_false_iff, beq_eq_false_iff_ne] at h0
        simp [h0.1, h0.2, Nat.pos_of_ne_zero]
      have hshift : ∀ j, ((idx + 1) % rows + j) % rows = (idx + (j + 1)) % rows := by
        intro j
        rw [Nat.mod_add_mod]
        congr 1
        omega
      have hrec := ih ((idx + 1) % rows) fuel (Nat.mod_lt _ hrows)
        (Nat.lt_of_succ_lt_succ hfuel)
        (by rw [hshift]; exact hstop)
        (by intro j hj; rw [hshift]; exact hmin (j + 1) (Nat.succ_lt_succ hj))
      rw [hshift c] at hrec
      simp only [getHashEntryMatchingKey, hcond]
      simpa using hrec

/-! ## Claim C1 -/

/-- Claim C1: the claim states that the sorted-merge intersection appends
a doc id only in a round in which all currently drawn values are equal, so
that every returned id was yielded by each of the `k` iterators.  The
code's `isAllEqual` instead tests `sum / length == values[0]`: with the
three ascending iterators `[2]`, `[1]`, `[3]` the drawn values `(2, 1, 3)`
average to 2 and the check passes, so `intersect` returns `[2]` although
the second and third iterators never yield 2. -/
theorem C1_intersect_returns_value_not_yielded_by_all :
    intersect [[2], [1], [3]] 100 none = [2] ∧
      ¬ ((2 : Int) ∈ ([1] : List Int)) ∧ ¬ ((2 : Int) ∈ ([3] : List Int)) := by
  decide

/-! ## Claim C2 -/

/-- Claim C2: the claim states that with a single posting iterator
(`k = 1`) the intersection drains up to `N` ids filtering by the `accept`
predicate, so a quoted phrase with no adjacent match yields zero results.
The code's `k = 1` branch pushes every drained id without consulting
`accept`: even the always-false predicate (a quote check that no document
satisfies) leaves the id in the result. -/
theorem C2_single_iterator_branch_ignores_accept :
    intersect [[5]] 100 (some fun _ => false) = [5] := by
  decide

/-! ## Claim C4 -/

/-- Claim C4: the claim states that `getSeed` fails with `RankExhausted`
whenever the reserved slot would be below 1, and in particular never
returns the sentinel doc id 0.  On a store with no record at id 0 the
source's loop stops at `rank = 0` and the guard `if (rank < 0)` does not
fire, so `getSeed(0)` returns the reserved sentinel 0 instead of
failing. -/
theorem C4_getSeed_returns_sentinel_zero : getSeedAux [] 0 = Except.ok 0 := rfl

/-! ## Claim C6 -/

theorem fullTable_probe_never_stops :
    ∀ (fuel idx : Nat), getHashEntryMatchingKey fullTable 2 keyAA idx 0 fuel = none := by
  intro fuel
  induction fuel with
  | zero => intro idx; rfl
  | succ n ih =>
    intro idx
    have hcond : ((fullTable idx).head > 0 && !hashEntryContainsData (fullTable idx) keyAA)
        = true := by
      show (fullBucket.head > 0 && !hashEntryContainsData fullBucket keyAA) = true
      decide
    simp only [getHashEntryMatchingKey, hcond]
    exact ih _

/-- Claim C6: the claim states that bucket-lookup probing terminates and
reports `BucketFull` when every slot is non-matching and non-vacant.  The
source's probe loop has no full-table detection and no `BucketFull` error:
looking up "aa" in a two-row table whose every bucket is occupied by the
key "zz", the loop is still running after any number of probes. -/
theorem C6_full_table_lookup_never_terminates :
    ∀ fuel : Nat, hashLookup fullTable 2 keyAA fuel = none := by
  intro fuel
  exact fullTable_probe_never_stops fuel _

/-- Witness: the full-table lookup is still probing after five steps. -/
theorem C6_full_table_lookup_never_terminates_witness :
    hashLookup fullTable 2 keyAA 5 = none :=
  C6_full_table_lookup_never_terminates 5

/-! ## Claim C5 -/

/-- Claim C5, counterexample: the claim states that lookup probes exactly
the buckets `(h + c ^ 2) % hash_rows` for `c = 0, 1, 2, ...`.  With the
buckets at `h` and `h + 1` occupied by another key, the code's third probe
lands on `(h + 2) % 8` (its never-incremented collision counter always
advances by one), while the claimed quadratic sequence would stop at
`(h + 4) % 8`; both are vacant, so the two lookups stop at different
buckets. -/
theorem C5_probe_sequence_is_linear_not_quadratic :
    hashLookup probeTable 8 keyAA 10 = some ((fnv32a keyAA % 8 + 2) % 8, 0, 0) ∧
      specQuadraticLookup probeTable 8 keyAA 0 10 = some ((fnv32a keyAA % 8 + 4) % 8) ∧
      (fnv32a keyAA % 8 + 2) % 8 ≠ (fnv32a keyAA % 8 + 4) % 8 := by
  decide

/-- Claim C5 as amended: for every key the lookup probes buckets exactly
in the sequence `b = (h + c) % hash_rows` for `c = 0, 1, 2, ...` — linear
probing, because the collision counter feeding the `(collisions + 1) ** 2`
step is never incremented — with `h = fnv1a_32(K) % hash_rows`, stopping
at the first probe that is vacant (`head = 0`) or whose stored key equals
`K`: if `c` is the first stopping offset and the probe budget exceeds it,
the lookup returns that bucket. -/
theorem C5_lookup_stops_at_first_linear_probe (tbl : Nat → Bucket) (rows : Nat)
    (key : List Nat) (c fuel : Nat) (hrows : 0 < rows) (hfuel : c < fuel)
    (hstop : probeStopsB tbl key ((fnv32a key % rows + c) % rows) = true)
    (hmin : ∀ j, j < c → probeStopsB tbl key ((fnv32a key % rows + j) % rows) = false) :
    hashLookup tbl rows key fuel =
      some ((fnv32a key % rows + c) % rows,
        (tbl ((fnv32a key % rows + c) % rows)).head,
        if (tbl ((fnv32a key % rows + c) % rows)).tail == 0
        then (tbl ((fnv32a key % rows + c) % rows)).head
        else (tbl ((fnv32a key % rows + c) % rows)).tail) :=
  probe_loop_first_stop tbl rows key hrows c (fnv32a key % rows) fuel
    (Nat.mod_lt _ hrows) hfuel hstop hmin

/-- Witness for the amended claim C5 at the two-collision table: the first
two linear probes fail, the third stops at the vacant bucket
`(h + 2) % 8`. -/
theorem C5_lookup_stops_at_first_linear_probe_witness :
    hashLookup probeTable 8 keyAA 10 =
      some ((fnv32a keyAA % 8 + 2) % 8,
        (probeTable ((fnv32a keyAA % 8 + 2) % 8)).head,
        if (probeTable ((fnv32a keyAA % 8 + 2) % 8)).tail == 0
        then (probeTable ((fnv32a keyAA % 8 + 2) % 8)).head
        else (probeTable ((fnv32a keyAA % 8 + 2) % 8)).tail) :=
  C5_lookup_stops_at_first_linear_probe probeTable 8 keyAA 2 10 (by decide) (by decide)
    (by decide) (by decide)

/-! ## Claim C8 -/

/-- Claim C8: the claim states that the snippet's merged position list
contains the quoted-run positions together with all per-document positions
of every query term outside the quoted ranges, no such position omitted.
For the query `aa "bb cc" dd` (quoted range `[1, 3)`) on a document with
`aa` at 10, the phrase `bb cc` at 20-21 and `dd` at 30, the source's
`indices.splice(quotes[i], quotes[i + 1])` passes the range's end index 3
as the delete count, deleting the entry of the non-quoted term `dd` as
well: the merged list is `[10, 20, 21]`, omitting position 30 although
`dd` is a non-quoted query term present in the document. -/
theorem C8_splice_count_bug_drops_nonquoted_position :
    introductionIndices c8Words c8Quotes c8PageIndex = [10, 20, 21] ∧
      (30 : Int) ∈ ((c8PageIndex.lookup "dd").getD []) ∧
      ¬ ((30 : Int) ∈ introductionIndices c8Words c8Quotes c8PageIndex) := by
  decide

/-! ## Claim C10 -/

/-- Claim C10: immediately after `set(K, payload)` — whether `K` was
previously absent (a fresh node is allocated) or present (the head node is
overwritten in place) — iterating the key yields no elements: `set` writes
the head node with `next = 0`, and `getIterator` suppresses a node whose
next pointer is 0, so the key's list reads as empty. -/
theorem C10_set_then_iterate_is_empty (nodeSz : Nat) (f : HashFile) (key : String)
    (data : List Nat) (fuel : Nat) :
    hashGetIterator (hashSet nodeSz f key data) key fuel = [] := by
  unfold hashSet
  cases hb : f.buckets.lookup key with
  | some hd =>
    obtain ⟨h, t⟩ := hd
    simp only [hashGetIterator, lookup_upsert_self]
    cases fuel with
    | zero => rfl
    | succ n => simp [iterFromNode, lookup_upsert_self]
  | none =>
    simp only [hashGetIterator, lookup_upsert_self]
    cases fuel with
    | zero => rfl
    | succ n => simp [iterFromNode, lookup_upsert_self]

/-- Witness for claim C10 at a concrete file state with an existing
two-node list for the key. -/
theorem C10_set_then_iterate_is_empty_witness :
    hashGetIterator
      (hashSet 8
        { buckets := [("k", 12, 20)],
          nodes := [(12, ([0, 0, 0, 5], 20)), (20, ([0, 0, 0, 9], 0))],
          free := 28 }
        "k" [1, 2, 3, 4])
      "k" 5 = [] :=
  C10_set_then_iterate_is_empty 8
    { buckets := [("k", 12, 20)],
      nodes := [(12, ([0, 0, 0, 5], 20)), (20, ([0, 0, 0, 9], 0))],
      free := 28 }
    "k" [1, 2, 3, 4] 5

/-! ## Claim C9 -/

/-- Claim C9, counterexample: the claim states that
`find_sorted_position` uses bytewise payload comparison.  The source
compares Buffers with the relational operator `<=`, which goes through
UTF-8 decoding: the payloads `[0,0,0,255]` (doc id 255) and `[0,0,0,128]`
(doc id 128) both decode to `"\u0000\u0000\u0000\uFFFD"` and compare
equal, so on the chain holding id 128 the code returns position 0 for id
255, while the bytewise rule of the claim gives position 2 (no stored
payload is bytewise at least `[0,0,0,255]`); indeed `[0,0,0,255]` is
bytewise greater than the payload at position 0. -/
theorem C9_comparison_is_not_bytewise :
    findIndexToInsertSortedAt (mkChain [128]) (toBEInt32 255) = 0 ∧
      specFindSortedPosition (mkChain [128]) (toBEInt32 255) = 2 ∧
      lexLe (toBEInt32 255) (toBEInt32 128) = false := by
  decide

/-- Claim C9 as amended: `findIndexToInsertSortedAt` returns the smallest
logical position whose node payload is at least the given payload under
the comparison the code actually performs — lexicographic UTF-16
comparison of the UTF-8 decodings of the two byte buffers, which agrees
with bytewise comparison exactly on ASCII-clean payloads — and when no
node qualifies it returns the node count (the scan's `i + 1` quirk yields
1 on a chain with no nodes). -/
theorem C9_sorted_position_characterization (chain : List (List Nat)) (b : List Nat) :
    findIndexToInsertSortedAt chain b =
      (match firstIdxWith (fun x => bufLe b x) chain with
       | some i => i
       | none => if chain.isEmpty then 1 else chain.length) := by
  cases chain with
  | nil => rfl
  | cons x xs =>
    rw [findIndexToInsertSortedAt, fisAux_characterization b (x :: xs) 0 0 (by simp)]
    cases hfi : firstIdxWith (fun p => bufLe b p) (x :: xs) with
    | none => simp [hfi]
    | some j => simp [hfi]

/-! ## Claim C7 -/

theorem getSeedAux_error_is_rankExhausted (pages : List (Nat × Page)) :
    ∀ (r : Nat) (e : EngineErr), getSeedAux pages r = .error e → e = .rankExhausted := by
  intro r
  induction r with
  | zero =>
    intro e h
    by_cases h0 : (pages.lookup 0).isSome
    · simp [getSeedAux, h0] at h
      exact h.symm
    · simp [getSeedAux, h0] at h
  | succ n ih =>
    intro e h
    by_cases h0 : (pages.lookup (n + 1)).isSome
    · simp only [getSeedAux, if_pos h0] at h
      exact ih e h
    · simp [getSeedAux, h0] at h

theorem binOps_addWord_error_shape (s : BinState) (w : String) (d : Nat) (e : EngineErr)
    (h : binOps.addWord s w d = .error e) : e = .pageIdTaken d := by
  by_cases hp : (s.pages.lookup d).isSome
  · simp [binOps, hp] at h
    exact h.symm
  · simp [binOps, hp] at h

theorem foldAddWords_binOps_error_is_pageIdTaken (seed : Nat) :
    ∀ (ws : List String) (s : BinState) (e : EngineErr),
      (foldAddWords binOps seed s ws).2 = some e → ∃ d, e = .pageIdTaken d := by
  intro ws
  induction ws with
  | nil => intro s e h; simp [foldAddWords] at h
  | cons w ws ih =>
    intro s e h
    simp only [foldAddWords] at h
    cases haw : binOps.addWord (binOps.initWord s w) w seed with
    | error e2 =>
      rw [haw] at h
      simp at h
      subst h
      exact ⟨seed, binOps_addWord_error_shape _ _ _ _ haw⟩
    | ok s2 =>
      rw [haw] at h
      exact ih s2 e h

/-- Claim C7, counterexample: the claim states that `add` fails with
`DuplicateUrl` if and only if the url is already mapped to a doc id.  In a
state where url "u" is mapped to the doc id 0 (a state `getSeed` can
produce, since it returns the sentinel 0), the truthiness test
`if (pageId)` does not fire and the second `add` of "u" succeeds instead
of failing. -/
theorem C7_url_mapped_to_zero_is_not_rejected :
    c7StateZero.urlToPage.lookup "u" = some 0 ∧
      (engineAdd binOps [] c7StateZero "t" "x" "u" 5).2 = none := by
  decide

/-- Claim C7 as amended: `add` fails with the `DuplicateUrl` error if and
only if the url is already mapped to a nonzero doc id (a binding to the
reserved sentinel 0 — which only the `getSeed` bug can create — is treated
as absent by the truthiness test), and on that failure it raises before
performing any storage write, leaving the state unchanged; on a url with
no binding no `DuplicateUrl` error can be produced. -/
theorem C7_duplicate_url_iff_mapped_nonzero (s : BinState) (sw : List String)
    (title text url : String) (rank : Nat) :
    (∀ d, s.urlToPage.lookup url = some d → 0 < d →
      engineAdd binOps sw s title text url rank =
        (s, some (.pageAlreadyInIndex url d))) ∧
    (s.urlToPage.lookup url = none →
      ∀ u0 d0, (engineAdd binOps sw s title text url rank).2 ≠
        some (.pageAlreadyInIndex u0 d0)) := by
  constructor
  · intro d hmap hd
    have hpid : binOps.getUrlToPage s url = some d := hmap
    have hne : (d != 0) = true := by
      simp only [bne_iff_ne, ne_eq]
      omega
    simp [engineAdd, hpid, truthyNum, hne]
  · intro hnone u0 d0
    have hpid : binOps.getUrlToPage s url = none := hnone
    simp only [engineAdd, hpid, truthyNum, Bool.false_eq_true, if_false]
    cases hseed : binOps.getSeed s rank with
    | error e =>
      have he : e = .rankExhausted :=
        getSeedAux_error_is_rankExhausted s.pages rank e hseed
      subst he
      simp [hseed]
    | ok seed =>
      simp only [hseed]
      split
      · next s2 e heq =>
        obtain ⟨d1, hd1⟩ :=
          foldAddWords_binOps_error_is_pageIdTaken seed _ _ e (by rw [heq])
        subst hd1
        simp
      · next s2 heq =>
        simp

/-- Witness for the amended claim C7: in a state binding url "w" to doc id
7, adding "w" again fails with the duplicate error and leaves the state
unchanged. -/
theorem C7_duplicate_url_iff_mapped_nonzero_witness :
    engineAdd binOps [] c7State "a" "b" "w" 3 =
      (c7State, some (.pageAlreadyInIndex "w" 7)) :=
  (C7_duplicate_url_iff_mapped_nonzero c7State [] "a" "b" "w" 3).1 7 (by decide) (by decide)

/-! ## Claim C3 -/

theorem toBEInt32_small (a : Nat) (ha : a < 128) : toBEInt32 a = [0, 0, 0, a] := by
  have h1 : a / 16777216 = 0 := Nat.div_eq_of_lt (by omega)
  have h2 : a / 65536 = 0 := Nat.div_eq_of_lt (by omega)
  have h3 : a / 256 = 0 := Nat.div_eq_of_lt (by omega)
  have h4 : a % 256 = a := Nat.mod_eq_of_lt (by omega)
  simp [toBEInt32, h1, h2, h3, h4]

theorem utf8Decode_four_ascii (a : Nat) (ha : a < 128) :
    utf8Decode [0, 0, 0, a] = [0, 0, 0, a] := by
  simp [utf8Decode, utf8DecodeAux, ha]

theorem utf16Units_four_small (a : Nat) (ha : a < 128) :
    utf16Units [0, 0, 0, a] = [0, 0, 0, a] := by
  have h : a < 65536 := by omega
  simp [utf16Units, h]

theorem lexLe_four (a b : Nat) :
    lexLe [0, 0, 0, a] [0, 0, 0, b] = decide (a ≤ b) := by
  rcases Nat.lt_trichotomy a b with h | h | h
  · simp [lexLe, h, Nat.le_of_lt h]
  · subst h
    simp [lexLe]
  · have h2 : ¬ a < b := by omega
    have h3 : ¬ a ≤ b := by omega
    simp [lexLe, h2, h, h3]

theorem bufLe_toBE (p q : Nat) (hp : p < 128) (hq : q < 128) :
    bufLe (toBEInt32 p) (toBEInt32 q) = decide (p ≤ q) := by
  rw [toBEInt32_small p hp, toBEInt32_small q hq]
  unfold bufLe
  rw [utf8Decode_four_ascii p hp, utf8Decode_four_ascii q hq,
    utf16Units_four_small p hp, utf16Units_four_small q hq, lexLe_four]

theorem bufLe_toBE_zeroNode (p : Nat) (hp0 : 0 < p) (hp : p < 128) :
    bufLe (toBEInt32 p) [0, 0, 0, 0] = false := by
  rw [toBEInt32_small p hp]
  unfold bufLe
  rw [utf8Decode_four_ascii p hp, utf8Decode_four_ascii 0 (by omega),
    utf16Units_four_small p hp, utf16Units_four_small 0 (by omega), lexLe_four]
  simp
  omega

theorem fisAux_shift (b : List Nat) (xs : List (List Nat)) (hxs : xs ≠ [])
    (idx i0 : Nat) : fisAux b xs idx i0 = idx + fisAux b xs 0 0 := by
  rw [fisAux_characterization b xs idx i0 hxs, fisAux_characterization b xs 0 0 hxs]
  cases h : firstIdxWith (fun x => bufLe b x) xs <;> simp

theorem mkChain_ne_nil (ids : List Nat) : mkChain ids ≠ [] := by
  simp [mkChain]

theorem insertAtChain_cons (y b : List Nat) (l : List (List Nat)) (hl : l ≠ []) (j : Nat) :
    insertAtChain (y :: l) (j + 1) b = y :: insertAtChain l j b := by
  cases l with
  | nil => exact absurd rfl hl
  | cons z zs =>
    by_cases hj : j = 0
    · subst hj
      have h1 : min 1 ((y :: z :: zs).length - 1) = 1 := by
        simp only [List.length_cons]
        omega
      simp [insertAtChain, h1]
    · by_cases hzs : zs = []
      · subst hzs
        have hm : min (j + 1) ((y :: z :: ([] : List (List Nat))).length - 1) = 1 := by
          simp only [List.length_cons, List.length_nil]
          omega
        simp [insertAtChain, hj, hm, List.length_cons]
      · have hzlen : 1 ≤ zs.length := by
          cases zs with
          | nil => exact absurd rfl hzs
          | cons w ws => simp
        have hlen2 : ¬ (y :: z :: zs).length ≤ 1 := by
          simp only [List.length_cons]
          omega
        have hlen1 : ¬ (z :: zs).length ≤ 1 := by
          simp only [List.length_cons]
          omega
        have hmin : min (j + 1) ((y :: z :: zs).length - 1) =
            min j ((z :: zs).length - 1) + 1 := by
          simp only [List.length_cons]
          omega
        simp only [insertAtChain, if_neg (by omega : ¬ j + 1 = 0), if_neg hj,
          if_neg hlen2, if_neg hlen1, hmin]
        simp [List.take_succ_cons, List.drop_succ_cons]

theorem insertOrd_cons_lt (d x : Nat) (l : List Nat) (h : x < d) :
    insertOrd d (x :: l) = x :: insertOrd d l := by
  simp [insertOrd, h]

theorem insertOrd_cons_ge (d x : Nat) (l : List Nat) (h : ¬ x < d) :
    insertOrd d (x :: l) = d :: x :: l := by
  simp [insertOrd, h]

theorem binAdd_mkChain (d : Nat) (hd0 : 0 < d) (hd1 : d < 128) :
    ∀ ids : List Nat, (∀ x ∈ ids, x < 128) →
      binAddWordChain (mkChain ids) d = mkChain (insertOrd d ids) := by
  intro ids
  induction ids with
  | nil =>
    intro _
    have hb0 : bufLe (toBEInt32 d) [0, 0, 0, 0] = false := bufLe_toBE_zeroNode d hd0 hd1
    simp [binAddWordChain, findIndexToInsertSortedAt, fisAux, hb0, insertAtChain,
      mkChain, insertOrd]
  | cons x ids ih =>
    intro hmem
    have hx : x < 128 := hmem x (by simp)
    have hrest : ∀ y ∈ ids, y < 128 := fun y hy => hmem y (by simp [hy])
    have hch : mkChain (x :: ids) = toBEInt32 x :: mkChain ids := by
      simp [mkChain]
    have hble : bufLe (toBEInt32 d) (toBEInt32 x) = decide (d ≤ x) := bufLe_toBE d x hd1 hx
    by_cases hdx : d ≤ x
    · have hfi : findIndexToInsertSortedAt (mkChain (x :: ids)) (toBEInt32 d) = 0 := by
        rw [hch]
        simp [findIndexToInsertSortedAt, fisAux, hble, hdx]
      rw [binAddWordChain, hfi, hch]
      rw [insertOrd_cons_ge d x ids (by omega)]
      simp [insertAtChain, mkChain]
    · have hxd : x < d := by omega
      have hfi : findIndexToInsertSortedAt (mkChain (x :: ids)) (toBEInt32 d) =
          findIndexToInsertSortedAt (mkChain ids) (toBEInt32 d) + 1 := by
        rw [hch]
        show fisAux (toBEInt32 d) (toBEInt32 x :: mkChain ids) 0 0 = _
        rw [show fisAux (toBEInt32 d) (toBEInt32 x :: mkChain ids) 0 0 =
            fisAux (toBEInt32 d) (mkChain ids) 1 0 by
          simp [fisAux, hble, hdx]]
        rw [fisAux_shift (toBEInt32 d) (mkChain ids) (mkChain_ne_nil ids) 1 0]
        rw [findIndexToInsertSortedAt]
        omega
      rw [binAddWordChain, hfi, hch,
        insertAtChain_cons _ _ _ (mkChain_ne_nil ids),
        insertOrd_cons_lt d x ids hxd]
      have := ih hrest
      rw [binAddWordChain] at this
      rw [this]
      simp [mkChain]

theorem strictAscendingB_insertOrd (d : Nat) :
    ∀ ids : List Nat, strictAscendingB ids = true → ¬ d ∈ ids →
      strictAscendingB (insertOrd d ids) = true := by
  intro ids
  induction ids with
  | nil =>
    intro _ _
    simp [insertOrd, strictAscendingB]
  | cons x ids ih =>
    intro hasc hmem
    have hmem2 : ¬ d ∈ ids := fun h => hmem (List.mem_cons_of_mem x h)
    by_cases hdx : x < d
    · rw [insertOrd_cons_lt d x ids hdx]
      cases ids with
      | nil =>
        simp [insertOrd, strictAscendingB, hdx]
      | cons y ids2 =>
        have h2 : (decide (x < y) && strictAscendingB (y :: ids2)) = true := hasc
        have hxy : x < y := by
          have h3 := h2
          simp at h3
          exact h3.1
        have hasc2 : strictAscendingB (y :: ids2) = true := by
          have h3 := h2
          simp at h3
          exact h3.2
        have hin := ih hasc2 hmem2
        by_cases hyd : y < d
        · rw [insertOrd_cons_lt d y ids2 hyd] at hin ⊢
          show (decide (x < y) && strictAscendingB (y :: insertOrd d ids2)) = true
          simp [hxy]
          exact hin
        · rw [insertOrd_cons_ge d y ids2 hyd] at hin ⊢
          show (decide (x < d) && strictAscendingB (d :: y :: ids2)) = true
          simp [hdx]
          exact hin
    · have hne : d ≠ x := fun h => hmem (by simp [h])
      have hdlt : d < x := by omega
      rw [insertOrd_cons_ge d x ids hdx]
      show (decide (d < x) && strictAscendingB (x :: ids)) = true
      simp [hdlt]
      exact hasc

/-- Claim C3, counterexample: the claim states that after any sequence of
add operations every non-empty posting list is strictly ascending in both
storage implementations.  With the in-memory storage, adding two documents
sharing the term "apple" with ranks 5 and then 3 leaves the posting list
`[5, 3]`: `MemoryStorage.addWord` is a plain push, so out-of-order ranks
produce a descending list. -/
theorem C3_memory_storage_posting_list_not_ascending :
    ((engineAdd memOps [] (engineAdd memOps [] memEmpty "t" "apple" "u1" 5).1
        "t" "apple" "u2" 3).1).index.lookup "apple" = some [5, 3] ∧
      strictAscendingB [5, 3] = false := by
  decide

/-- Claim C3 as amended: the disk-backed storage's `addWord` keeps a
posting chain strictly ascending when the inserted doc id is new and the
ids are small enough that the Buffer comparison is bytewise-faithful (all
below 128, so their big-endian payloads are ASCII-clean): the chain for a
strictly ascending id list becomes the chain of the sorted insertion,
still strictly ascending.  The in-memory storage's `addWord` merely
appends the id, so its lists are ascending only when doc ids arrive in
increasing order. -/
theorem C3_disk_sorted_insert_memory_append (ids : List Nat) (d : Nat) (mem : List Nat)
    (hasc : strictAscendingB ids = true) (hrange : ∀ x ∈ ids, x < 128)
    (hd0 : 0 < d) (hd1 : d < 128) (hfresh : ¬ d ∈ ids) :
    binAddWordChain (mkChain ids) d = mkChain (insertOrd d ids) ∧
      strictAscendingB (insertOrd d ids) = true ∧
      memAddWord mem d = mem ++ [d] :=
  ⟨binAdd_mkChain d hd0 hd1 ids hrange,
   strictAscendingB_insertOrd d ids hasc hfresh, rfl⟩

/-- Witness for the amended claim C3: inserting the fresh id 7 into the
chain holding 3 and 10 yields the chain of `[3, 7, 10]`. -/
theorem C3_disk_sorted_insert_memory_append_witness :
    binAddWordChain (mkChain [3, 10]) 7 = mkChain (insertOrd 7 [3, 10]) ∧
      strictAscendingB (insertOrd 7 [3, 10]) = true ∧
      memAddWord [5] 7 = [5] ++ [7] :=
  C3_disk_sorted_insert_memory_append [3, 10] 7 [5] (by decide) (by decide)
    (by decide) (by decide) (by decide)

/-- Witness for the amended claim C9 at a concrete chain and payload. -/
theorem C9_sorted_position_characterization_witness :
    findIndexToInsertSortedAt (mkChain [128]) (toBEInt32 200) =
      (match firstIdxWith (fun x => bufLe (toBEInt32 200) x) (mkChain [128]) with
       | some i => i
       | none => if (mkChain [128]).isEmpty then 1 else (mkChain [128]).length) :=
  C9_sorted_position_characterization (mkChain [128]) (toBEInt32 200)

end SearchEngine
